import Mathlib

/-!
Verification development for the email checklist application (`main.py`).

The program keeps a SQLite table `emails(id, email, status, number)` behind a
single-window Qt UI.  We shallowly embed the pieces the specification talks
about:

* the seed-document parser `parse_seed` (a Python regex
  `^\* \[(?P<state>[xo\- ])\]\s+(?P<email>\S+)(?:\s+\((?P<number>[^)]+)\))?$`
  applied per stripped line), embedded as an explicit leftmost/greedy
  backtracking matcher over `List Char`;
* the store (list of entries plus the next AUTOINCREMENT id; a failed
  statement is modelled as `none` / an error value, in which case nothing is
  committed);
* the sort clause `STATUS_SORT_CLAUSE` (a `CASE status ... END` rank followed
  by `id`) used by `_load_rows`, embedded as `insertionSort` by that key;
* the Qt controller handlers `_add_email`, `_delete_selected`,
  `_update_status`, `_on_item_changed`, `_load_rows` as functions on an
  explicit application state (the `_loading` flag, the line-edit contents and
  the table rows with their `UserRole` ids).
-/

namespace EmailChecklist

/-! ### Constants from `main.py` -/

/-- `STATUSES = ["unused", "using", "used", "leftover"]` -/
def STATUSES : List String := ["unused", "using", "used", "leftover"]

/-- `STATUS_SORT = ["using", "unused", "leftover", "used"]` -/
def STATUS_SORT : List String := ["using", "unused", "leftover", "used"]

/-- The rank computed by `STATUS_SORT_CLAUSE`, i.e. the SQL expression
`CASE status WHEN 'using' THEN 0 WHEN 'unused' THEN 1 WHEN 'leftover' THEN 2
WHEN 'used' THEN 3 ELSE 4 END` built from `STATUS_SORT`. -/
def statusRank (s : String) : Nat :=
  if s = "using" then 0
  else if s = "unused" then 1
  else if s = "leftover" then 2
  else if s = "used" then 3
  else 4

/-- `SEED_STATUS` dictionary; `.get(state, "unused")` defaults to `"unused"`. -/
def SEED_STATUS (c : Char) : String :=
  if c = 'x' then "used"
  else if c = 'o' then "using"
  else if c = '-' then "leftover"
  else if c = ' ' then "unused"
  else "unused"

/-! ### The seed parser

The regex is embedded as an explicit backtracking matcher.  A greedy `p+`
piece yields, longest first, every split of the input into a nonempty
all-`p` prefix (necessarily a prefix of the maximal `p`-run) and the rest;
`firstSome` commits to the first alternative whose continuation succeeds,
which is exactly the leftmost/greedy semantics of Python `re`. -/

/-- `\s` of Python `re` (ASCII whitespace suffices for our documents). -/
def isWs (c : Char) : Bool := c.isWhitespace

/-- Python `str.strip()` on the character list: drop whitespace from both
ends. -/
def pyStrip (l : List Char) : List Char :=
  ((l.dropWhile isWs).reverse.dropWhile isWs).reverse

/-- Python `str.strip()` as a `String` operation. -/
def pyTrim (s : String) : String := String.mk (pyStrip s.data)

/-- Python `str.splitlines()` on the character list (newline separation; the
sole difference from Python — no trailing empty piece there — is a blank
line, which the parser skips). -/
def splitlinesL : List Char → List (List Char)
  | [] => [[]]
  | c :: rest =>
    if c = '\n' then [] :: splitlinesL rest
    else
      match splitlinesL rest with
      | [] => [[c]]
      | l :: ls => (c :: l) :: ls

/-- Candidate splits for a greedy `p+`: `(consumed, rest)` pairs, longest
consumed first. -/
def plusCandidates (p : Char → Bool) (s : List Char) : List (List Char × List Char) :=
  let run := s.takeWhile p
  let rest := s.dropWhile p
  (List.range run.length).map fun i =>
    (run.take (run.length - i), run.drop (run.length - i) ++ rest)

/-- Try alternatives in order, return the first success (backtracking). -/
def firstSome {α β : Type} (l : List α) (f : α → Option β) : Option β :=
  match l with
  | [] => none
  | a :: as =>
    match f a with
    | some b => some b
    | none => firstSome as f

/-- The optional tail `(?:\s+\((?P<number>[^)]+)\))?$` of the regex, in its
group-present form: whitespace, `(`, a nonempty run without `)`, then `)`
which must end the line. -/
def numberSuffix (st : Char) (email r2 : List Char) :
    Option (Char × List Char × Option (List Char)) :=
  firstSome (plusCandidates isWs r2) fun pr3 =>
    match pr3.2 with
    | [] => none
    | c :: r4 =>
      if c = '(' then
        firstSome (plusCandidates (fun a => !(a = ')')) r4) fun pr5 =>
          if pr5.2 = [')'] then some (st, email, some pr5.1) else none
      else none

/-- The part of the regex after `\]`: `\s+(?P<email>\S+)` followed by the
optional number group or, failing that (the group is greedy, so the
group-present form is tried first), the end of the line. -/
def afterBracket (st : Char) (rest : List Char) :
    Option (Char × List Char × Option (List Char)) :=
  firstSome (plusCandidates isWs rest) fun pr1 =>
    firstSome (plusCandidates (fun a => !(isWs a)) pr1.2) fun pr2 =>
      match numberSuffix st pr2.1 pr2.2 with
      | some r => some r
      | none => if pr2.2 = [] then some (st, pr2.1, none) else none

/-- `pattern.match(line)`: the leading literal `* [`, one state character out
of `[xo\- ]`, the literal `]`, then `afterBracket`.  Returns the `state`,
`email` and optional `number` groups. -/
def matchSeedLine (s : List Char) : Option (Char × List Char × Option (List Char)) :=
  match s with
  | a :: b :: c :: st :: d :: rest =>
    if a = '*' ∧ b = ' ' ∧ c = '[' ∧ d = ']' ∧
        (st = 'x' ∨ st = 'o' ∨ st = '-' ∨ st = ' ') then
      afterBracket st rest
    else none
  | _ => none

/-- One iteration of the `for line in SEED_TEXT.splitlines()` loop body:
strip, skip blanks, match, and build the `(email, status, number)` triple
(`email.strip()`, `SEED_STATUS.get(state, "unused")`,
`(number or "").strip()`). -/
def processLine (line : List Char) : Option (String × String × String) :=
  let l := pyStrip line
  if l = [] then none
  else
    match matchSeedLine l with
    | none => none
    | some (st, email, num) =>
      some (String.mk (pyStrip email), SEED_STATUS st,
        String.mk (pyStrip (num.getD [])))

/-- `parse_seed()`, parameterised by the seed document text (`SEED_TEXT` is
read from `base.txt` at import time in the source). -/
def parse_seed (seedText : String) : List (String × String × String) :=
  (splitlinesL seedText.data).filterMap processLine

/-! ### The store -/

/-- One row of the `emails` table. -/
structure Entry where
  id : Nat
  email : String
  status : String
  number : Option String
deriving DecidableEq, Repr

/-- The `emails` table plus the next AUTOINCREMENT id (never reused). -/
structure Store where
  nextId : Nat
  entries : List Entry
deriving DecidableEq, Repr

/-- `INSERT INTO emails (email, status, number) VALUES (?, ?, ?)`:
`none` models `sqlite3.IntegrityError` raised by the `UNIQUE` constraint on
`email` (BINARY collation: case-sensitive exact comparison); on error nothing
is committed. -/
def insertEntry (s : Store) (email status : String) (number : Option String) :
    Option (Store × Nat) :=
  if s.entries.any (fun e => e.email = email) then none
  else
    some ({ nextId := s.nextId + 1,
            entries := s.entries ++ [⟨s.nextId, email, status, number⟩] }, s.nextId)

/-- `executemany` over the seed rows: each row's `number` is bound as a TEXT
value (the parser's string, possibly `""` — never `NULL`); the first
`IntegrityError` aborts before `commit`, leaving the table unchanged
(`none`). -/
def bulkInsert (s : Store) (rows : List (String × String × String)) : Option Store :=
  match rows with
  | [] => some s
  | (e, st, n) :: rest =>
    match insertEntry s e st (some n) with
    | none => none
    | some (s', _) => bulkInsert s' rest

/-- `UPDATE emails SET status = ? WHERE id = ?` (no-op on a missing id). -/
def storeUpdateStatus (s : Store) (id : Nat) (status : String) : Store :=
  { s with entries := s.entries.map fun e => if e.id = id then { e with status } else e }

/-- `UPDATE emails SET number = ? WHERE id = ?` (no-op on a missing id). -/
def storeUpdateNumber (s : Store) (id : Nat) (number : Option String) : Store :=
  { s with entries := s.entries.map fun e => if e.id = id then { e with number } else e }

/-- `DELETE FROM emails WHERE id = ?` (no-op on a missing id). -/
def deleteById (s : Store) (id : Nat) : Store :=
  { s with entries := s.entries.filter fun e => e.id != id }

/-- The display order of `_load_rows`' query
`ORDER BY {STATUS_SORT_CLAUSE}, id`: rank of `status`, ties by `id`. -/
def entryKeyLe (a b : Entry) : Prop :=
  statusRank a.status < statusRank b.status ∨
    (statusRank a.status = statusRank b.status ∧ a.id ≤ b.id)

instance : DecidableRel entryKeyLe := fun a b => by
  unfold entryKeyLe; infer_instance

instance : IsTotal Entry entryKeyLe :=
  ⟨fun a b => by unfold entryKeyLe; omega⟩

instance : IsTrans Entry entryKeyLe :=
  ⟨fun a b c hab hbc => by unfold entryKeyLe at *; omega⟩

/-- `SELECT id, email, status, number FROM emails ORDER BY
{STATUS_SORT_CLAUSE}, id`. -/
def listAll (s : Store) : List Entry :=
  s.entries.insertionSort entryKeyLe

/-- `_ensure_seed_data`: seed only when `SELECT COUNT(*)` is zero and the
parser produced rows; `none` models the uncaught `IntegrityError` of the
batch insert (no commit happened, the app dies during startup). -/
def ensureSeedData (s : Store) (seedText : String) : Option Store :=
  if s.entries.length ≠ 0 then some s
  else
    let rows := parse_seed seedText
    if rows.isEmpty then some s
    else bulkInsert s rows

/-! ### The presentation controller

The Qt widgets are embedded as plain data: the three line-edit/combo inputs
of the form, the `_loading` flag and the table.  Each table row carries the
entry id stored as `UserRole` data on its email and number items. -/

/-- One table row as built by `_load_rows`: the id stored as `UserRole`
data, the email label, the combo-box text and the number cell text. -/
structure TableRow where
  rowId : Nat
  email : String
  statusBox : String
  numberText : String
deriving DecidableEq, Repr

/-- The widget state the handlers read and write. -/
structure AppState where
  loading : Bool
  store : Store
  emailInput : String
  statusInput : String
  numberInput : String
  table : List TableRow
deriving DecidableEq, Repr

/-- The display binding of one entry in `_load_rows`: combo preset to the
status if recognized else `"unused"`, number cell preset to `number or ""`. -/
def mkTableRow (e : Entry) : TableRow :=
  { rowId := e.id
    email := e.email
    statusBox := if e.status ∈ STATUSES then e.status else "unused"
    numberText := e.number.getD "" }

/-- `_load_rows`: set `_loading`, rebuild the table from the ordered query,
clear `_loading`.  The net effect on the state is the rebuilt table with
`loading = false`; the suppression during the rebuild is what lets the
programmatic `setCurrentText`/`setItem` calls fire no store writes. -/
def loadRows (st : AppState) : AppState :=
  { st with table := (listAll st.store).map mkTableRow, loading := false }

/-- Messages shown by `QMessageBox.warning` in `_add_email`. -/
inductive UserMessage
  | missingEmail
  | duplicateEmail
deriving DecidableEq, Repr

/-- `_add_email`: strip the email (warn and stop when blank), take the combo
status, strip the number and turn `""` into `NULL` (`.strip() or None`),
insert; on `IntegrityError` warn and return with every input untouched; on
success clear the email and number inputs and reload. -/
def addEmail (st : AppState) : AppState × Option UserMessage :=
  let email := pyTrim st.emailInput
  if email = "" then (st, some UserMessage.missingEmail)
  else
    let status := st.statusInput
    let number := if pyTrim st.numberInput = "" then none else some (pyTrim st.numberInput)
    match insertEntry st.store email status number with
    | none => (st, some UserMessage.duplicateEmail)
    | some (s', _) =>
      (loadRows { st with store := s', emailInput := "", numberInput := "" }, none)

/-- `_row_id_for_row`: the `UserRole` data of the column-0 item of the given
row (`none` when there is no such item). -/
def rowIdForRow (table : List TableRow) (row : Nat) : Option Nat :=
  (table.get? row).map TableRow.rowId

/-- The ids the delete handler resolves from a selection: the distinct
selected row indices, visited in descending order, each resolved through
`_row_id_for_row` (unresolvable rows are skipped by the `continue`). -/
def resolvedIds (st : AppState) (selectedRows : List Nat) : List Nat :=
  ((selectedRows.dedup).insertionSort (fun a b => a ≥ b)).filterMap
    (rowIdForRow st.table)

/-- `_delete_selected`: the set of selected rows (empty set: return before
the dialog), the confirmation dialog (modelled by `confirm`; any answer but
Yes: return), then one `DELETE` per resolved id followed by a reload. -/
def deleteSelected (st : AppState) (selectedRows : List Nat) (confirm : Bool) :
    AppState :=
  let rows := selectedRows.dedup
  if rows.isEmpty then st
  else if !confirm then st
  else
    loadRows { st with store := (resolvedIds st selectedRows).foldl deleteById st.store }

/-- `_update_status`, the per-row combo callback: ignored while `_loading`,
ignored when the text is not one of `STATUSES`, otherwise an immediate
`UPDATE` (no reload). -/
def updateStatusHandler (st : AppState) (rowId : Nat) (status : String) : AppState :=
  if st.loading then st
  else if status ∉ STATUSES then st
  else { st with store := storeUpdateStatus st.store rowId status }

/-- The `QTableWidgetItem` argument of `_on_item_changed`: its position, its
`UserRole` data and its text. -/
structure ChangedItem where
  row : Nat
  column : Nat
  userData : Option Nat
  text : String
deriving DecidableEq, Repr

/-- `_on_item_changed`, the cell-edit callback: ignored while `_loading`,
ignored off column 2, resolves the id from the item's `UserRole` data with
`_row_id_for_row` as fallback, strips the text, turns `""` into `NULL`
(`.strip() or None`) and issues an immediate `UPDATE` (no reload). -/
def onItemChanged (st : AppState) (item : ChangedItem) : AppState :=
  if st.loading then st
  else if item.column ≠ 2 then st
  else
    match item.userData.orElse (fun _ => rowIdForRow st.table item.row) with
    | none => st
    | some rid =>
      let number := if pyTrim item.text = "" then none else some (pyTrim item.text)
      { st with store := storeUpdateNumber st.store rid number }

/-! ### Sample states used by witnesses, and the spec-side reading of the
number rule -/

/-- A one-entry state whose form holds an email already present. -/
def dupState : AppState :=
  ⟨false, ⟨2, [⟨1, "a@x.com", "unused", none⟩]⟩, "a@x.com", "unused", "",
    [⟨1, "a@x.com", "unused", ""⟩]⟩

/-- A state captured while `_load_rows` is repopulating the table. -/
def loadingState : AppState :=
  ⟨true, ⟨2, [⟨1, "a@x.com", "unused", some "5"⟩]⟩, "", "unused", "",
    [⟨1, "a@x.com", "unused", "5"⟩]⟩

/-- The same state in interactive mode. -/
def idleState : AppState :=
  ⟨false, ⟨2, [⟨1, "a@x.com", "unused", some "5"⟩]⟩, "", "unused", "",
    [⟨1, "a@x.com", "unused", "5"⟩]⟩

/-- Five entries, table freshly loaded. -/
def fiveState : AppState :=
  loadRows ⟨false, ⟨6, [⟨1, "e1", "unused", none⟩, ⟨2, "e2", "unused", none⟩,
    ⟨3, "e3", "unused", none⟩, ⟨4, "e4", "unused", none⟩,
    ⟨5, "e5", "unused", none⟩]⟩, "", "unused", "", []⟩

/-- Follows the specification's words, not the code: "the text between the
last matching parentheses on the line" — the content of the last `(` on the
line that is closed by a later `)` (its match being the first `)` after it),
up to that `)`.  Compared against the regex capture in the C6 theorems. -/
def specLastMatchingParenText : List Char → Option (List Char)
  | [] => none
  | c :: rest =>
    match specLastMatchingParenText rest with
    | some r => some r
    | none =>
      if c = '(' ∧ rest.dropWhile (fun a => !(a = ')')) ≠ [] then
        some (rest.takeWhile (fun a => !(a = ')')))
      else none

/-! ### Helper lemmas -/

theorem firstSome_eq_some {α β : Type} {l : List α} {f : α → Option β} {b : β}
    (h : firstSome l f = some b) : ∃ a ∈ l, f a = some b := by
  induction l with
  | nil => simp [firstSome] at h
  | cons a as ih =>
    rw [firstSome] at h
    cases hfa : f a with
    | some b' =>
      rw [hfa] at h
      exact ⟨a, List.mem_cons_self a as, hfa.trans h⟩
    | none =>
      rw [hfa] at h
      obtain ⟨a', ha', hfa'⟩ := ih h
      exact ⟨a', List.mem_cons_of_mem a ha', hfa'⟩

theorem plusCandidates_mem {p : Char → Bool} {s pre r : List Char}
    (h : (pre, r) ∈ plusCandidates p s) :
    s = pre ++ r ∧ pre ≠ [] ∧ ∀ c ∈ pre, p c := by
  unfold plusCandidates at h
  simp only [List.mem_map, List.mem_range] at h
  obtain ⟨i, hi, heq⟩ := h
  set run := s.takeWhile p with hrun
  set rest := s.dropWhile p with hrest
  have h1 : run.take (run.length - i) = pre := congrArg Prod.fst heq
  have h2 : run.drop (run.length - i) ++ rest = r := congrArg Prod.snd heq
  have hk : 1 ≤ run.length - i := by omega
  refine ⟨?_, ?_, ?_⟩
  · rw [← h1, ← h2, ← List.append_assoc, List.take_append_drop, hrun, hrest,
      List.takeWhile_append_dropWhile]
  · intro hnil
    rw [← h1] at hnil
    have := congrArg List.length hnil
    simp [List.length_take] at this
    omega
  · intro c hc
    rw [← h1] at hc
    exact List.mem_takeWhile_imp (List.mem_of_mem_take hc)

/-- Inversion of the group-present form of the optional number tail: it
consumes whitespace, `(`, a nonempty `)`-free capture and a final `)`. -/
theorem numberSuffix_eq_some {st : Char} {email r2 : List Char}
    {r : Char × List Char × Option (List Char)}
    (h : numberSuffix st email r2 = some r) :
    ∃ ws2 num, r = (st, email, some num) ∧ r2 = ws2 ++ '(' :: (num ++ [')']) ∧
      ws2 ≠ [] ∧ (∀ a ∈ ws2, isWs a) ∧ num ≠ [] ∧ ∀ a ∈ num, ¬(a = ')') := by
  obtain ⟨pr3, hmem3, hb⟩ := firstSome_eq_some h
  obtain ⟨ws2, rr⟩ := pr3
  obtain ⟨hsplit3, hne3, hws3⟩ := plusCandidates_mem hmem3
  cases rr with
  | nil => simp at hb
  | cons c r4 =>
    simp only at hb
    split_ifs at hb with hc
    obtain ⟨pr5, hmem5, hb5⟩ := firstSome_eq_some hb
    obtain ⟨num, rr5⟩ := pr5
    obtain ⟨hsplit5, hne5, hnp⟩ := plusCandidates_mem hmem5
    simp only at hb5
    split_ifs at hb5 with h5
    cases hb5
    refine ⟨ws2, num, rfl, ?_, hne3, hws3, hne5, ?_⟩
    · rw [hsplit3, hc, hsplit5, h5]
    · intro a ha
      have := hnp a ha
      simpa using this

/-- Inversion of the part of the regex after `\]`: mandatory whitespace, the
email token, then either the end of the line or the number suffix. -/
theorem afterBracket_eq_some {st : Char} {rest : List Char}
    {r : Char × List Char × Option (List Char)}
    (h : afterBracket st rest = some r) :
    ∃ ws1 email tail, rest = ws1 ++ (email ++ tail) ∧ ws1 ≠ [] ∧
      (∀ a ∈ ws1, isWs a) ∧ email ≠ [] ∧ (∀ a ∈ email, ¬(isWs a = true)) ∧
      ((tail = [] ∧ r = (st, email, none)) ∨
        ∃ ws2 num, tail = ws2 ++ '(' :: (num ++ [')']) ∧ ws2 ≠ [] ∧
          (∀ a ∈ ws2, isWs a) ∧ num ≠ [] ∧ (∀ a ∈ num, ¬(a = ')')) ∧
          r = (st, email, some num)) := by
  obtain ⟨pr1, hmem1, hb1⟩ := firstSome_eq_some h
  obtain ⟨ws1, r1⟩ := pr1
  obtain ⟨hs1, hn1, hw1⟩ := plusCandidates_mem hmem1
  obtain ⟨pr2, hmem2, hb2⟩ := firstSome_eq_some hb1
  obtain ⟨email, r2⟩ := pr2
  obtain ⟨hs2', hn2, hw2⟩ := plusCandidates_mem hmem2
  have hs2 : r1 = email ++ r2 := hs2'
  simp only at hb2
  have hemail : ∀ a ∈ email, ¬(isWs a = true) := by
    intro a ha
    have := hw2 a ha
    simpa using this
  cases hns : numberSuffix st email r2 with
  | some r' =>
    rw [hns] at hb2
    cases hb2
    obtain ⟨ws2, num, hr, ht, hne2, hws2, hnum, hnp⟩ := numberSuffix_eq_some hns
    exact ⟨ws1, email, r2, by rw [hs1, hs2], hn1, hw1, hn2, hemail,
      Or.inr ⟨ws2, num, ht, hne2, hws2, hnum, hnp, hr⟩⟩
  | none =>
    rw [hns] at hb2
    split_ifs at hb2 with hr2
    cases hb2
    exact ⟨ws1, email, r2, by rw [hs1, hs2], hn1, hw1, hn2, hemail,
      Or.inl ⟨hr2, rfl⟩⟩

/-- Full inversion of the seed-line regex: a successful match decomposes the
line into `* [<state>]`, whitespace, the email token and either nothing or a
whitespace-preceded `(...)` suffix ending the line. -/
theorem matchSeedLine_eq_some {s : List Char}
    {r : Char × List Char × Option (List Char)}
    (h : matchSeedLine s = some r) :
    (r.1 = 'x' ∨ r.1 = 'o' ∨ r.1 = '-' ∨ r.1 = ' ') ∧
    ∃ ws1 email tail,
      s = '*' :: ' ' :: '[' :: r.1 :: ']' :: (ws1 ++ (email ++ tail)) ∧
      ws1 ≠ [] ∧ (∀ a ∈ ws1, isWs a) ∧ email ≠ [] ∧
      (∀ a ∈ email, ¬(isWs a = true)) ∧
      ((tail = [] ∧ r = (r.1, email, none)) ∨
        ∃ ws2 num, tail = ws2 ++ '(' :: (num ++ [')']) ∧ ws2 ≠ [] ∧
          (∀ a ∈ ws2, isWs a) ∧ num ≠ [] ∧ (∀ a ∈ num, ¬(a = ')')) ∧
          r = (r.1, email, some num)) := by
  rcases s with _ | ⟨a, _ | ⟨b, _ | ⟨c, _ | ⟨st, _ | ⟨d, rest⟩⟩⟩⟩⟩
  · exact Option.noConfusion h
  · exact Option.noConfusion h
  · exact Option.noConfusion h
  · exact Option.noConfusion h
  · exact Option.noConfusion h
  · rw [matchSeedLine] at h
    split_ifs at h with hc
    obtain ⟨ha, hb, hcc, hd, hst⟩ := hc
    obtain ⟨ws1, email, tail, hsplit, hn1, hw1, hn2, hw2, hbranch⟩ :=
      afterBracket_eq_some h
    have hfst : r.1 = st := by
      rcases hbranch with ⟨_, hr⟩ | ⟨_, _, _, _, _, _, _, hr⟩ <;> rw [hr]
    subst ha hb hcc hd
    constructor
    · rw [hfst]; exact hst
    · refine ⟨ws1, email, tail, by rw [hfst, hsplit], hn1, hw1, hn2, hw2, ?_⟩
      rw [hfst]
      exact hbranch

theorem foldl_deleteById_entries (ids : List Nat) (s : Store) :
    (ids.foldl deleteById s).entries
      = s.entries.filter (fun e => !(ids.contains e.id)) := by
  induction ids generalizing s with
  | nil => simp
  | cons i ids ih =>
    rw [List.foldl_cons, ih]
    simp only [deleteById, List.filter_filter]
    apply List.filter_congr
    intro e _
    by_cases h1 : e.id = i <;> by_cases h2 : e.id ∈ ids <;> simp [h1, h2]

theorem bulkInsert_numbers {rows : List (String × String × String)} :
    ∀ {s s' : Store}, bulkInsert s rows = some s' →
      s'.entries.map Entry.number
        = s.entries.map Entry.number ++ rows.map (fun r => some r.2.2) := by
  induction rows with
  | nil =>
    intro s s' h
    rw [bulkInsert] at h
    cases h
    simp
  | cons row rest ih =>
    intro s s' h
    obtain ⟨e, st, n⟩ := row
    rw [bulkInsert] at h
    cases hins : insertEntry s e st (some n) with
    | none => rw [hins] at h; cases h
    | some p =>
      rw [hins] at h
      unfold insertEntry at hins
      split at hins
      · cases hins
      · cases hins
        rw [ih h]
        simp

theorem bulkInsert_length {rows : List (String × String × String)} {s s' : Store}
    (h : bulkInsert s rows = some s') :
    s'.entries.length = s.entries.length + rows.length := by
  have := congrArg List.length (bulkInsert_numbers h)
  simpa using this

/-! ### The claims -/

/-- C1: listing all rows returns them sorted by the fixed status rank
(`using` < `unused` < `leftover` < `used` < unrecognized-last), ties broken
by ascending id; entries with statuses used, unused, using, leftover
inserted in that order are listed as using, unused, leftover, used. -/
theorem C1_listAll_ordering :
    (∀ s : Store, (listAll s).Sorted entryKeyLe ∧ (listAll s).Perm s.entries) ∧
    statusRank "using" = 0 ∧ statusRank "unused" = 1 ∧
    statusRank "leftover" = 2 ∧ statusRank "used" = 3 ∧
    (∀ stat, stat ∉ STATUS_SORT → statusRank stat = 4) ∧
    listAll ⟨5, [⟨1, "a", "used", none⟩, ⟨2, "b", "unused", none⟩,
        ⟨3, "c", "using", none⟩, ⟨4, "d", "leftover", none⟩]⟩
      = [⟨3, "c", "using", none⟩, ⟨2, "b", "unused", none⟩,
         ⟨4, "d", "leftover", none⟩, ⟨1, "a", "used", none⟩] := by
  refine ⟨fun s => ⟨List.sorted_insertionSort entryKeyLe s.entries,
    List.perm_insertionSort entryKeyLe s.entries⟩,
    by decide, by decide, by decide, by decide, ?_, by decide⟩
  intro stat h
  simp only [STATUS_SORT, List.mem_cons, List.not_mem_nil, or_false, not_or] at h
  obtain ⟨h1, h2, h3, h4⟩ := h
  simp [statusRank, h1, h2, h3, h4]

theorem C1_listAll_ordering_witness :
    ("borrowed" ∉ STATUS_SORT) ∧ statusRank "borrowed" = 4 :=
  ⟨by decide, C1_listAll_ordering.2.2.2.2.2.1 "borrowed" (by decide)⟩

/-- C2: the four-line seed document parses to exactly the four stated
triples in document order; the marker table maps `x`/`o`/`-`/space to
used/using/leftover/unused, and a successful match only ever carries one of
those four markers. -/
theorem C2_seed_parser_roundtrip :
    parse_seed "* [x] a@x.com (7)\n* [o] b@x.com\n* [ ] c@x.com\n* [-] d@x.com"
      = [("a@x.com", "used", "7"), ("b@x.com", "using", ""),
         ("c@x.com", "unused", ""), ("d@x.com", "leftover", "")] ∧
    SEED_STATUS 'x' = "used" ∧ SEED_STATUS 'o' = "using" ∧
    SEED_STATUS '-' = "leftover" ∧ SEED_STATUS ' ' = "unused" ∧
    ∀ (s : List Char) (r : Char × List Char × Option (List Char)),
      matchSeedLine s = some r → r.1 = 'x' ∨ r.1 = 'o' ∨ r.1 = '-' ∨ r.1 = ' ' := by
  refine ⟨by decide, by decide, by decide, by decide, by decide, ?_⟩
  intro s r h
  exact (matchSeedLine_eq_some h).1

theorem C2_seed_parser_roundtrip_witness :
    matchSeedLine ("* [x] a@x.com".data) = some ('x', "a@x.com".data, none) ∧
    ('x' = 'x' ∨ 'x' = 'o' ∨ 'x' = '-' ∨ 'x' = ' ') :=
  ⟨by decide,
    C2_seed_parser_roundtrip.2.2.2.2.2 ("* [x] a@x.com".data)
      ('x', "a@x.com".data, none) (by decide)⟩

/-- C3: adding an email that already exists (case-sensitive exact match)
fails with the duplicate-email warning and leaves the whole state — store,
every row, and all three form inputs — untouched. -/
theorem C3_duplicate_insert_rejected (st : AppState)
    (hne : pyTrim st.emailInput ≠ "")
    (hdup : ∃ e ∈ st.store.entries, e.email = pyTrim st.emailInput) :
    addEmail st = (st, some UserMessage.duplicateEmail) := by
  have hany : (st.store.entries.any fun e => e.email = pyTrim st.emailInput) = true := by
    rw [List.any_eq_true]
    obtain ⟨e, he, heq⟩ := hdup
    exact ⟨e, he, by simp [heq]⟩
  simp only [addEmail, insertEntry]
  rw [if_neg hne, hany]
  simp

theorem C3_duplicate_insert_rejected_witness :
    pyTrim dupState.emailInput ≠ "" ∧
    (∃ e ∈ dupState.store.entries, e.email = pyTrim dupState.emailInput) ∧
    addEmail dupState = (dupState, some UserMessage.duplicateEmail) :=
  ⟨by decide, ⟨⟨1, "a@x.com", "unused", none⟩, by decide, by decide⟩,
    C3_duplicate_insert_rejected dupState (by decide)
      ⟨⟨1, "a@x.com", "unused", none⟩, by decide, by decide⟩⟩

/-- C5: on a non-empty store the startup seeding is a no-op (it returns
right after `count()`), so running it twice neither duplicates nor alters
rows. -/
theorem C5_startup_skips_seed_when_nonempty (s : Store) (doc : String)
    (h : 0 < s.entries.length) :
    ensureSeedData s doc = some s ∧
    (ensureSeedData s doc).bind (fun s' => ensureSeedData s' doc) = some s := by
  have hne : s.entries.length ≠ 0 := by omega
  have h1 : ensureSeedData s doc = some s := by
    rw [ensureSeedData, if_pos hne]
  exact ⟨h1, by rw [h1, Option.some_bind, h1]⟩

theorem C5_startup_skips_seed_when_nonempty_witness :
    0 < (Store.entries ⟨2, [⟨1, "a", "unused", none⟩]⟩).length ∧
    (ensureSeedData ⟨2, [⟨1, "a", "unused", none⟩]⟩ "* [x] b"
        = some ⟨2, [⟨1, "a", "unused", none⟩]⟩ ∧
      (ensureSeedData ⟨2, [⟨1, "a", "unused", none⟩]⟩ "* [x] b").bind
          (fun s' => ensureSeedData s' "* [x] b")
        = some ⟨2, [⟨1, "a", "unused", none⟩]⟩) :=
  ⟨by decide, C5_startup_skips_seed_when_nonempty _ _ (by decide)⟩

/-- C7: blank-after-strip lines and lines the regex rejects produce no row
and no error, and removing them from a document leaves the parse unchanged;
in particular the spec's blank/`not a checklist item` document parses the
same as the document without those lines. -/
theorem C7_malformed_lines_skipped :
    (∀ l : List Char, pyStrip l = [] → processLine l = none) ∧
    (∀ l : List Char, matchSeedLine (pyStrip l) = none → processLine l = none) ∧
    (∀ (xs ys : List (List Char)) (l : List Char), processLine l = none →
      (xs ++ l :: ys).filterMap processLine = (xs ++ ys).filterMap processLine) ∧
    parse_seed "* [x] a@x.com (7)\n\nnot a checklist item\n* [o] b@x.com"
      = parse_seed "* [x] a@x.com (7)\n* [o] b@x.com" := by
  refine ⟨?_, ?_, ?_, by decide⟩
  · intro l h
    simp [processLine, h]
  · intro l h
    by_cases hl : pyStrip l = []
    · simp [processLine, hl]
    · simp [processLine, hl, h]
  · intro xs ys l h
    simp [List.filterMap_append, List.filterMap_cons, h]

theorem C7_malformed_lines_skipped_witness :
    processLine ("not a checklist item".data) = none ∧
    (["* [x] a@x.com (7)".data] ++ "not a checklist item".data
        :: ["* [o] b@x.com".data]).filterMap processLine
      = (["* [x] a@x.com (7)".data] ++ ["* [o] b@x.com".data]).filterMap processLine :=
  ⟨by decide, C7_malformed_lines_skipped.2.2.1 _ _ _ (by decide)⟩

/-- C8: while `_loading` is set, neither the status-change callback nor the
item-changed callback touches anything — both return the state unchanged,
so in particular the store is unchanged. -/
theorem C8_reloading_suppresses_writes (st : AppState) (rowId : Nat)
    (status : String) (item : ChangedItem) (h : st.loading = true) :
    updateStatusHandler st rowId status = st ∧ onItemChanged st item = st := by
  constructor
  · rw [updateStatusHandler, if_pos h]
  · rw [onItemChanged, if_pos h]

theorem C8_reloading_suppresses_writes_witness :
    loadingState.loading = true ∧
    (updateStatusHandler loadingState 1 "used" = loadingState ∧
      onItemChanged loadingState ⟨0, 2, some 1, "9"⟩ = loadingState) :=
  ⟨by decide,
    C8_reloading_suppresses_writes loadingState 1 "used" ⟨0, 2, some 1, "9"⟩ rfl⟩

/-- C10: the status-change handler itself rejects any status outside
`STATUSES` (no store write), and consequently every entry it ever writes
either predates the call or carries a status in the enumeration. -/
theorem C10_status_enum_enforced (st : AppState) (rowId : Nat) (status : String) :
    (status ∉ STATUSES → updateStatusHandler st rowId status = st) ∧
    ∀ e ∈ (updateStatusHandler st rowId status).store.entries,
      e ∈ st.store.entries ∨ e.status ∈ STATUSES := by
  constructor
  · intro h
    by_cases h1 : st.loading = true
    · rw [updateStatusHandler, if_pos h1]
    · rw [updateStatusHandler, if_neg h1, if_pos h]
  · intro e he
    by_cases h1 : st.loading = true
    · rw [updateStatusHandler, if_pos h1] at he
      exact Or.inl he
    · by_cases h2 : status ∉ STATUSES
      · rw [updateStatusHandler, if_neg h1, if_pos h2] at he
        exact Or.inl he
      · rw [updateStatusHandler, if_neg h1, if_neg h2] at he
        simp only [storeUpdateStatus, List.mem_map] at he
        obtain ⟨e0, he0, heq⟩ := he
        by_cases hid : e0.id = rowId
        · rw [if_pos hid] at heq
          rw [← heq]
          exact Or.inr (not_not.mp h2)
        · rw [if_neg hid] at heq
          rw [← heq]
          exact Or.inl he0

theorem C10_status_enum_enforced_witness :
    ("retired" ∉ STATUSES) ∧ updateStatusHandler idleState 1 "retired" = idleState :=
  ⟨by decide, (C10_status_enum_enforced idleState 1 "retired").1 (by decide)⟩

/-- C4 as stated is false: the bulk seed insert binds the parser's number
string verbatim, so a seed line without a number stores the empty string,
not an absent value — seeding `* [ ] c@x.com` into an empty store yields an
entry whose `number` is `some ""`. -/
theorem C4_seed_stores_empty_string :
    ensureSeedData ⟨1, []⟩ "* [ ] c@x.com"
      = some ⟨2, [⟨1, "c@x.com", "unused", some ""⟩]⟩ ∧
    (some "" : Option String) ≠ (none : Option String) :=
  ⟨by decide, by decide⟩

/-- C4 amended: the Add handler and the number-edit handler normalize a
blank number to absent (any entry they produce either keeps its old value
or has `number = none`), but the bulk seed insert stores each parsed number
string verbatim, the empty string included. -/
theorem C4_blank_number_normalization :
    (∀ st : AppState, pyTrim st.numberInput = "" →
      ∀ e ∈ (addEmail st).1.store.entries, e.number = none ∨ e ∈ st.store.entries) ∧
    (∀ (st : AppState) (item : ChangedItem), pyTrim item.text = "" →
      ∀ e ∈ (onItemChanged st item).store.entries,
        e.number = none ∨ e ∈ st.store.entries) ∧
    (∀ (s s' : Store) (rows : List (String × String × String)),
      bulkInsert s rows = some s' →
      s'.entries.map Entry.number
        = s.entries.map Entry.number ++ rows.map (fun r => some r.2.2)) := by
  refine ⟨?_, ?_, fun s s' rows h => bulkInsert_numbers h⟩
  · intro st h e he
    by_cases hne : pyTrim st.emailInput = ""
    · rw [addEmail] at he
      rw [if_pos hne] at he
      exact Or.inr he
    · rw [addEmail] at he
      rw [if_neg hne] at he
      have hnum : (if pyTrim st.numberInput = "" then (none : Option String)
          else some (pyTrim st.numberInput)) = none := if_pos h
      rw [hnum] at he
      dsimp only at he
      cases hins : insertEntry st.store (pyTrim st.emailInput) st.statusInput none with
      | none =>
        rw [hins] at he
        exact Or.inr he
      | some p =>
        rw [hins] at he
        rw [insertEntry] at hins
        split_ifs at hins with hdup
        cases hins
        simp only [loadRows] at he
        simp only [List.mem_append, List.mem_singleton] at he
        rcases he with he | he
        · exact Or.inr he
        · rw [he]
          exact Or.inl rfl
  · intro st item h e he
    by_cases h1 : st.loading = true
    · rw [onItemChanged, if_pos h1] at he
      exact Or.inr he
    · by_cases h2 : item.column ≠ 2
      · rw [onItemChanged, if_neg h1, if_pos h2] at he
        exact Or.inr he
      · rw [onItemChanged, if_neg h1, if_neg h2] at he
        cases hrid : item.userData.orElse (fun _ => rowIdForRow st.table item.row) with
        | none =>
          rw [hrid] at he
          exact Or.inr he
        | some rid =>
          rw [hrid] at he
          simp only [h, if_pos rfl, storeUpdateNumber, List.mem_map] at he
          obtain ⟨e0, he0, heq⟩ := he
          by_cases hid : e0.id = rid
          · rw [if_pos hid] at heq
            rw [← heq]
            exact Or.inl rfl
          · rw [if_neg hid] at heq
            rw [← heq]
            exact Or.inr he0

theorem C4_blank_number_normalization_witness :
    bulkInsert ⟨1, []⟩ [("a@x.com", "unused", "")]
      = some ⟨2, [⟨1, "a@x.com", "unused", some ""⟩]⟩ ∧
    (⟨2, [⟨1, "a@x.com", "unused", some ""⟩]⟩ : Store).entries.map Entry.number
      = (⟨1, []⟩ : Store).entries.map Entry.number
        ++ [("a@x.com", "unused", "")].map (fun r => some r.2.2) :=
  ⟨by decide, C4_blank_number_normalization.2.2 _ _ _ (by decide)⟩

/-- C6 as stated is false: the recognized line `* [x] a (( 7 )` carries a
parenthesized suffix, the text between its last matching parentheses is
` 7 ` (trimmed: `7`), yet the parsed number is `( 7` — the capture starts at
the first `(` of the suffix, not at the last matching `(`. -/
theorem C6_last_paren_counterexample :
    processLine ("* [x] a (( 7 )".data) = some ("a", "used", "( 7") ∧
    (specLastMatchingParenText ("* [x] a (( 7 )".data)).map
        (fun l => String.mk (pyStrip l)) = some "7" ∧
    ("( 7" : String) ≠ "7" :=
  ⟨by decide, by decide, by decide⟩

/-- C6 amended: for every recognized line carrying a number, the parsed
number is the trimmed text strictly between the `(` that opens the trailing
parenthesized suffix (the first `(` after the whitespace following the email
token) and the final `)` of the line; that text contains no `)` — but it may
contain `(`, so it need not lie between matching parentheses. -/
theorem C6_number_capture (line : List Char) (em st nb : String)
    (h : processLine line = some (em, st, nb))
    (c : Char) (e num : List Char)
    (h2 : matchSeedLine (pyStrip line) = some (c, e, some num)) :
    nb = String.mk (pyStrip num) ∧ num ≠ [] ∧ (∀ a ∈ num, ¬(a = ')')) ∧
    ∃ ws1 ws2, ws1 ≠ [] ∧ (∀ a ∈ ws1, isWs a) ∧ ws2 ≠ [] ∧ (∀ a ∈ ws2, isWs a) ∧
      pyStrip line = '*' :: ' ' :: '[' :: c :: ']'
        :: (ws1 ++ (e ++ (ws2 ++ '(' :: (num ++ [')'])))) := by
  have hnb : nb = String.mk (pyStrip num) := by
    rw [processLine] at h
    by_cases hl : pyStrip line = []
    · rw [hl] at h2
      exact Option.noConfusion h2
    · rw [if_neg hl, h2] at h
      cases h
      rfl
  obtain ⟨-, ws1, email, tail, hsplit, hn1, hw1, -, -, hbranch⟩ :=
    matchSeedLine_eq_some h2
  rcases hbranch with ⟨-, hr⟩ | ⟨ws2, num', htail, hn2, hw2, hnum, hnp, hr⟩
  · exact absurd (congrArg (fun t => t.2.2) hr) (by simp)
  · have he : email = e ∧ num' = num := by
      have h1 := congrArg (fun t => t.2.1) hr
      have h2' := congrArg (fun t => t.2.2) hr
      simp only at h1 h2'
      exact ⟨h1.symm, ((Option.some.injEq _ _).mp h2').symm⟩
    obtain ⟨hee, hnn⟩ := he
    subst hee hnn
    exact ⟨hnb, hnum, hnp, ws1, ws2, hn1, hw1, hn2, hw2, by rw [hsplit, htail]⟩

theorem C6_number_capture_witness :
    processLine ("* [x] a@x.com ( 7 )".data) = some ("a@x.com", "used", "7") ∧
    matchSeedLine (pyStrip ("* [x] a@x.com ( 7 )".data))
      = some ('x', "a@x.com".data, some [' ', '7', ' ']) ∧
    (("7" : String) = String.mk (pyStrip [' ', '7', ' ']) ∧
      ([' ', '7', ' '] : List Char) ≠ [] ∧ (∀ a ∈ ([' ', '7', ' '] : List Char), ¬(a = ')')) ∧
      ∃ ws1 ws2, ws1 ≠ [] ∧ (∀ a ∈ ws1, isWs a) ∧ ws2 ≠ [] ∧ (∀ a ∈ ws2, isWs a) ∧
        pyStrip ("* [x] a@x.com ( 7 )".data) = '*' :: ' ' :: '[' :: 'x' :: ']'
          :: (ws1 ++ ("a@x.com".data ++ (ws2 ++ '(' :: (([' ', '7', ' '] : List Char) ++ [')']))))) :=
  ⟨by decide, by decide,
    C6_number_capture ("* [x] a@x.com ( 7 )".data) "a@x.com" "used" "7"
      (by decide) 'x' ("a@x.com".data) [' ', '7', ' '] (by decide)⟩

/-- C9: a confirmed delete removes exactly the entries whose ids were
resolved from the selected rows (all other entries survive verbatim, in
particular unchanged in id, email, status and number); an unconfirmed
delete changes nothing (and an empty selection resolves no id, so nothing
is removed); deleting the rows holding ids 2 and 5 among five entries
leaves exactly the other three unchanged. -/
theorem C9_delete_selected :
    (∀ (st : AppState) (sel : List Nat),
      (deleteSelected st sel true).store.entries
        = st.store.entries.filter (fun e => !((resolvedIds st sel).contains e.id))) ∧
    (∀ (st : AppState) (sel : List Nat), deleteSelected st sel false = st) ∧
    (deleteSelected fiveState [1, 4] true).store.entries
      = [⟨1, "e1", "unused", none⟩, ⟨3, "e3", "unused", none⟩,
         ⟨4, "e4", "unused", none⟩] := by
  refine ⟨?_, ?_, by decide⟩
  · intro st sel
    by_cases hd : (sel.dedup).isEmpty = true
    · have hnil : sel.dedup = [] := by
        cases h : sel.dedup with
        | nil => rfl
        | cons a l => rw [h] at hd; exact Bool.noConfusion hd
      have hres : resolvedIds st sel = [] := by
        rw [resolvedIds, hnil]
        rfl
      rw [deleteSelected]
      simp only [hd, if_pos rfl, hres]
      simp
    · rw [deleteSelected]
      simp only [hd]
      rw [if_neg (by simp), if_neg (by simp)]
      exact foldl_deleteById_entries _ _
  · intro st sel
    rw [deleteSelected]
    by_cases hd : (sel.dedup).isEmpty = true
    · rw [if_pos hd]
    · rw [if_neg hd]
      simp

end EmailChecklist
